import Mathlib

/-!
Shallow embedding of the `efgh` CloudEvents HTTP adapter (Go).

The embedding follows the repository sources:
* `handler.go` — `functionHandler`, `wrap`, `Invoke`, `ServeHTTP`,
  `convertStructured`, `convertBinary`;
* `efgh.go` — `CloudEventContext`, `CloudEvent`, the private context key;
* the draft variant (package file with `FunctionHandler`, `EventTime`,
  `EventId`, `getHeader`, `headerKey`).

Go's `reflect` types are modelled by `GoType` (a kind together with the two
interface-satisfaction facts `wrap` queries); machine strings and byte
slices are Lean `String`s; `error` values are `Option String` carrying the
message (`none` = nil error); the `encoding/json` package is abstracted as
an explicit `JsonCodec` parameter; `context.Context` is an association list
written through `WithValue`.
-/

deriving instance DecidableEq for Except

/-- Kind of a Go type as distinguished by `Invoke`: a byte slice
(`reflect.Slice` of `reflect.Uint8`), a struct, or anything else. -/
inductive GoKind where
  | sliceU8
  | structKind
  | otherKind
deriving DecidableEq, Repr, Fintype

/-- Model of a Go `reflect.Type` as observed by `wrap` and `Invoke`: its
kind plus whether it implements `context.Context` and whether it
implements `error`. -/
structure GoType where
  kind : GoKind
  implementsContext : Bool
  implementsError : Bool
deriving DecidableEq, Repr, Fintype

/-- Model of a Go function type: the parameter types (`NumIn`/`In`) and the
return types (`NumOut`/`Out`). -/
structure FuncType where
  ins : List GoType
  outs : List GoType
deriving DecidableEq, Repr

/-- Model of a Go `time.Time` as produced by `time.Parse(time.RFC3339, _)`:
calendar fields, nanoseconds, and the zone offset in minutes. -/
structure GoTime where
  year : Nat
  month : Nat
  day : Nat
  hour : Nat
  minute : Nat
  second : Nat
  nanos : Nat
  offsetMin : Int
deriving DecidableEq, Repr

/-- Zero value of Go `time.Time`: January 1, year 1, 00:00:00 UTC. -/
def GoTime.zero : GoTime := ⟨1, 1, 1, 0, 0, 0, 0, 0⟩

/-- Decimal digit test on a character. -/
def isDigitCh (c : Char) : Bool := 48 ≤ c.toNat && c.toNat ≤ 57

/-- Value of a list of decimal digit characters. -/
def digitsVal (cs : List Char) : Nat :=
  cs.foldl (fun acc c => acc * 10 + (c.toNat - 48)) 0

/-- Consume exactly `n` decimal digits, returning their value and the rest. -/
def takeDigits (n : Nat) (cs : List Char) : Option (Nat × List Char) :=
  let pre := cs.take n
  if pre.length = n ∧ pre.all isDigitCh = true then
    some (digitsVal pre, cs.drop n)
  else none

/-- Consume one expected character. -/
def expectCh (c : Char) : List Char → Option (List Char)
  | [] => none
  | x :: rest => if x = c then some rest else none

/-- Nanoseconds denoted by the digits after the decimal point (as in Go,
at most nine digits are significant; fewer digits are scaled up). -/
def fracNanos (ds : List Char) : Nat :=
  let d9 := ds.take 9
  digitsVal (d9 ++ List.replicate (9 - d9.length) (Char.ofNat 48))

/-- Consume an optional fractional-seconds part: either nothing, or a dot
followed by at least one digit (a bare dot is a parse error, as in Go). -/
def parseFrac : List Char → Option (Nat × List Char)
  | [] => some (0, [])
  | c :: rest =>
    if c = Char.ofNat 46 then
      let ds := rest.takeWhile isDigitCh
      if ds.length = 0 then none
      else some (fracNanos ds, rest.dropWhile isDigitCh)
    else some (0, c :: rest)

/-- Consume the RFC-3339 zone part: `Z` for UTC, or a sign followed by
`hh:mm`; the result is the offset in minutes. -/
def parseOffset : List Char → Option (Int × List Char)
  | [] => none
  | c :: rest =>
    if c = Char.ofNat 90 then some (0, rest)
    else if c = Char.ofNat 43 ∨ c = Char.ofNat 45 then
      match takeDigits 2 rest with
      | none => none
      | some (oh, r2) =>
        match expectCh (Char.ofNat 58) r2 with
        | none => none
        | some r3 =>
          match takeDigits 2 r3 with
          | none => none
          | some (om, r4) =>
            if oh ≤ 23 ∧ om ≤ 59 then
              let total : Int := Int.ofNat (oh * 60 + om)
              some (if c = Char.ofNat 45 then -total else total, r4)
            else none
    else none

/-- Gregorian leap-year test. -/
def isLeap (y : Nat) : Bool := y % 4 == 0 && (y % 100 != 0 || y % 400 == 0)

/-- Number of days in a month. -/
def daysInMonth (y m : Nat) : Nat :=
  if m = 2 then (if isLeap y then 29 else 28)
  else if m = 4 ∨ m = 6 ∨ m = 9 ∨ m = 11 then 30
  else 31

/-- Calendar validity of a year/month/day combination. -/
def validDate (y m d : Nat) : Bool :=
  decide (1 ≤ m) && decide (m ≤ 12) && decide (1 ≤ d) && decide (d ≤ daysInMonth y m)

/-- Model of Go `time.Parse(time.RFC3339, s)`: accepts
`yyyy-mm-ddThh:mm:ss`, an optional fractional-seconds part, and a zone of
`Z` or `±hh:mm`; rejects out-of-range fields and trailing input. Returns
`none` on any parse failure. -/
def rfc3339Parse (s : String) : Option GoTime :=
  (takeDigits 4 s.data).bind fun p1 =>
  (expectCh (Char.ofNat 45) p1.2).bind fun r2 =>
  (takeDigits 2 r2).bind fun p2 =>
  (expectCh (Char.ofNat 45) p2.2).bind fun r3 =>
  (takeDigits 2 r3).bind fun p3 =>
  (expectCh (Char.ofNat 84) p3.2).bind fun r4 =>
  (takeDigits 2 r4).bind fun p4 =>
  (expectCh (Char.ofNat 58) p4.2).bind fun r5 =>
  (takeDigits 2 r5).bind fun p5 =>
  (expectCh (Char.ofNat 58) p5.2).bind fun r6 =>
  (takeDigits 2 r6).bind fun p6 =>
  (parseFrac p6.2).bind fun p7 =>
  (parseOffset p7.2).bind fun p8 =>
  if p8.2 = [] ∧ validDate p1.1 p2.1 p3.1 = true ∧ p4.1 ≤ 23 ∧ p5.1 ≤ 59 ∧ p6.1 ≤ 59 then
    some ⟨p1.1, p2.1, p3.1, p4.1, p5.1, p6.1, p7.1, p8.1⟩
  else none

/-- Characters legal in an HTTP header field name (Go
`textproto` token table: letters, digits, and a fixed punctuation set). -/
def validHeaderFieldChar (c : Char) : Bool :=
  let n := c.toNat
  (48 ≤ n && n ≤ 57) || (65 ≤ n && n ≤ 90) || (97 ≤ n && n ≤ 122) ||
  n == 33 || n == 35 || n == 36 || n == 37 || n == 38 || n == 39 ||
  n == 42 || n == 43 || n == 45 || n == 46 || n == 94 || n == 95 ||
  n == 96 || n == 124 || n == 126

/-- Canonicalization pass over the characters of a header name: uppercase
at the start and after each hyphen, lowercase elsewhere. -/
def canonList : Bool → List Char → List Char
  | _, [] => []
  | upper, c :: rest =>
    let c2 := if upper then c.toUpper else c.toLower
    c2 :: canonList (c = Char.ofNat 45) rest

/-- Model of Go `textproto.CanonicalMIMEHeaderKey`: names containing an
invalid byte are returned unchanged, otherwise the case of each letter is
canonicalized (`content-type` becomes `Content-Type`). -/
def canonicalHeaderKey (s : String) : String :=
  if s.data.all validHeaderFieldChar then String.mk (canonList true s.data) else s

/-- First value stored under a (canonical) header name, empty when absent. -/
def headerLookup (k : String) : List (String × String) → String
  | [] => ""
  | e :: rest => if e.fst = k then e.snd else headerLookup k rest

/-- Model of Go `http.Header`: entries are stored under canonical names
(the `net/http` server canonicalizes incoming field names). -/
structure Header where
  entries : List (String × String)
deriving DecidableEq, Repr

/-- Model of `http.Header.Get`: canonicalize the queried name and return
the first value stored under it, or the empty string when absent. -/
def Header.get (h : Header) (k : String) : String :=
  headerLookup (canonicalHeaderKey k) h.entries

/-- Model of Go `time.Time` inside a `CloudEventContext` plus the string
metadata fields, in the field order of `efgh.go`. `Extensions` is never
populated by the decoder and is modelled as an association list. -/
structure CloudEventContext where
  EventType : String
  EventTypeVersion : String
  CloudEventsVersion : String
  Source : String
  EventID : String
  EventTime : GoTime
  SchemaURL : String
  ContentType : String
  Extensions : List (String × String)
deriving DecidableEq, Repr

/-- Zero value of `CloudEventContext` (what a failed type assertion in
`CloudEvent` yields). -/
def CloudEventContext.zero : CloudEventContext :=
  ⟨"", "", "", "", "", GoTime.zero, "", "", []⟩

/-- Keys storable in a request context: the package-private
`contextKey` of `efgh.go`, the `headerKey` of the draft variant, and
opaque foreign keys. -/
inductive CtxKey where
  | contextKey
  | headerKey
  | otherKey (n : Nat)
deriving DecidableEq, Repr

/-- Values storable in a request context under some key. -/
inductive CtxVal where
  | ce (c : CloudEventContext)
  | headerV (h : Header)
  | otherV (n : Nat)
deriving DecidableEq, Repr

/-- Model of Go `context.Context` restricted to what the package uses:
an association list of key/value pairs, newest first. -/
abbrev Context := List (CtxKey × CtxVal)

/-- Model of `context.WithValue`: derive a context with one more pair. -/
def Context.withValue (c : Context) (k : CtxKey) (v : CtxVal) : Context :=
  (k, v) :: c

/-- Model of `ctx.Value(key)`: the newest value stored under the key. -/
def Context.value : Context → CtxKey → Option CtxVal
  | [], _ => none
  | (k, v) :: rest, q => if k = q then some v else Context.value rest q

/-- Model of `efgh.CloudEvent`: look up the private `contextKey` and
type-assert to `CloudEventContext`; a missing or foreign value yields the
zero value and `false`. -/
def CloudEvent (ctx : Context) : CloudEventContext × Bool :=
  match Context.value ctx CtxKey.contextKey with
  | some (CtxVal.ce c) => (c, true)
  | _ => (CloudEventContext.zero, false)

/-- Model of a Go runtime value passed to or returned from the user
function: a byte slice, an opaque struct instance (the codec interprets
the tag), an `error`-typed value (`none` means a nil error), a context,
or some other value. -/
inductive GoValue where
  | bytesV (s : String)
  | structV (n : Nat)
  | errV (m : Option String)
  | ctxV (c : Context)
  | otherV (n : Nat)
deriving DecidableEq, Repr

/-- Bytes of a value, as read by `response[0].Bytes()` when the output
type is a byte slice (well-typed calls always hit the `bytesV` case). -/
def GoValue.goBytes : GoValue → String
  | GoValue.bytesV s => s
  | _ => ""

/-- Abstraction of `encoding/json` as used by `Invoke`: `unmarshal`
decodes payload bytes into a fresh instance of the given struct type, and
`marshal` encodes a value; either can fail with an error message. -/
structure JsonCodec where
  unmarshal : GoType → String → Except String GoValue
  marshal : GoValue → Except String String

/-- Model of the `functionHandler` struct of `handler.go`: the wrapped
function (as its callable semantics) and the signature metadata computed
by `wrap`. -/
structure functionHandler where
  f : List GoValue → List GoValue
  needsContext : Bool
  hasError : Bool
  inType : Option GoType
  outType : Option GoType

/-- Projection of the pure signature-metadata fields of a handler (used to
compare analysis results without comparing function values). -/
structure BindingData where
  needsContext : Bool
  hasError : Bool
  inType : Option GoType
  outType : Option GoType
deriving DecidableEq, Repr

/-- Metadata fields of a `functionHandler`. -/
def functionHandler.binding (fh : functionHandler) : BindingData :=
  ⟨fh.needsContext, fh.hasError, fh.inType, fh.outType⟩

/-- Model of a Go function value: its reflected type together with its
call semantics. -/
structure GoFunc where
  typ : FuncType
  call : List GoValue → List GoValue

/-- Argument of `wrap`: either a function value or any non-function value
(whose `reflect.Kind` is not `Func`). -/
inductive GoFuncValue where
  | func (fn : GoFunc)
  | nonFunc

/-- Errors `wrap` can return, one per `fmt.Errorf` site in `handler.go`. -/
inductive SignatureError where
  | notAFunction
  | tooManyArguments
  | contextMustBeFirst
  | tooManyReturnValues
  | invalidErrorPosition
deriving DecidableEq, Repr

/-- Model of `wrap` from `handler.go`: validate the reflected signature in
source order (kind, `NumIn` bound, first-parameter context check, `NumOut`
bound, error-position check) and build the handler metadata. -/
def wrap (v : GoFuncValue) : Except SignatureError functionHandler :=
  match v with
  | GoFuncValue.nonFunc => Except.error SignatureError.notAFunction
  | GoFuncValue.func fn =>
    let t := fn.typ
    if t.ins.length > 2 then Except.error SignatureError.tooManyArguments
    else
      let needsContext :=
        match t.ins.head? with
        | some a => a.implementsContext
        | none => false
      let inType1 : Option GoType :=
        match t.ins.head? with
        | some a => if a.implementsContext then none else some a
        | none => none
      if t.ins.length = 2 ∧ needsContext = false then
        Except.error SignatureError.contextMustBeFirst
      else
        let inType2 :=
          if t.ins.length = 2 then (t.ins.drop 1).head? else inType1
        if t.outs.length > 2 then Except.error SignatureError.tooManyReturnValues
        else
          let hasError1 :=
            match t.outs.head? with
            | some a => a.implementsError
            | none => false
          let outType1 : Option GoType :=
            match t.outs.head? with
            | some a => if a.implementsError then none else some a
            | none => none
          if t.outs.length = 2 ∧
              (hasError1 = true ∨
                (match (t.outs.drop 1).head? with
                 | some b => b.implementsError
                 | none => false) = false) then
            Except.error SignatureError.invalidErrorPosition
          else
            let hasError2 := if t.outs.length = 2 then true else hasError1
            Except.ok ⟨fn.call, needsContext, hasError2, inType2, outType1⟩

/-- Boolean success test for `Except`. -/
def exceptOk {ε α : Type} : Except ε α → Bool
  | Except.ok _ => true
  | Except.error _ => false

/-- Argument-construction step of `Invoke` for the data parameter: byte
slices take the payload unchanged, structs go through `json.Unmarshal`
(which can fail, aborting before the call), and any other parameter kind
is the `Unable to unmarshall type` failure. -/
def buildDataArg (codec : JsonCodec) (inType : Option GoType) (inp : String) :
    Except String (List GoValue) :=
  match inType with
  | none => Except.ok []
  | some t =>
    if t.kind = GoKind.sliceU8 then Except.ok [GoValue.bytesV inp]
    else if t.kind = GoKind.structKind then
      match codec.unmarshal t inp with
      | Except.error e => Except.error e
      | Except.ok v => Except.ok [v]
    else Except.error "Unable to unmarshall type"

/-- Result-extraction step of `Invoke` for the data return value. An
`Except.error` models the early `return nil, err` for an unsupported
output kind; a marshal failure is not an early return — it yields
`(none, some e)` and control continues to the error-return inspection. -/
def extractOut (codec : JsonCodec) (outType : Option GoType)
    (response : List GoValue) : Except String (Option String × Option String) :=
  match outType with
  | none => Except.ok (none, none)
  | some t =>
    if t.kind = GoKind.sliceU8 then
      Except.ok (some (GoValue.goBytes (response.getD 0 (GoValue.otherV 0))), none)
    else if t.kind = GoKind.structKind then
      match codec.marshal (response.getD 0 (GoValue.otherV 0)) with
      | Except.ok s => Except.ok (some s, none)
      | Except.error e => Except.ok (none, some e)
    else Except.error "Unable to marshal type"

/-- Model of the two-value type assertion
`err, ok = response[len(response)-1].Interface().(error)`: a non-nil
error value yields its message, a nil error or non-error value yields
`none` (the assertion zeroes `err`). -/
def lastError (response : List GoValue) : Option String :=
  match response.getLast? with
  | some (GoValue.errV m) => m
  | _ => none

/-- Model of `functionHandler.Invoke`: build the argument list (context
first when needed, then the decoded data argument), call the function,
extract the data output, and — when the signature has an error return —
overwrite the error with the last return value's assertion result. The
handler travels through unchanged as explicit state. -/
def Invoke (codec : JsonCodec) (fh : functionHandler) (ctx : Context)
    (inp : String) : (Option String × Option String) × functionHandler :=
  let ctxArgs := if fh.needsContext then [GoValue.ctxV ctx] else []
  match buildDataArg codec fh.inType inp with
  | Except.error e => ((none, some e), fh)
  | Except.ok dataArgs =>
    let response := fh.f (ctxArgs ++ dataArgs)
    match extractOut codec fh.outType response with
    | Except.error e => ((none, some e), fh)
    | Except.ok (out, merr) =>
      ((out, if fh.hasError then lastError response else merr), fh)

/-- Errors the protocol decoder can produce, one per failing return in
`convertStructured` / `convertBinary`. -/
inductive GoError where
  | structuredUnsupported
  | timeParse (input : String)
  | bodyRead (msg : String)
deriving DecidableEq, Repr

/-- Message text of a decoder error, as written into the 417 response
body. The structured-mode message is the literal string of
`errors.New` in `handler.go`; the time-parse message models the fixed
prefix of Go's `time.ParseError` text. -/
def GoError.message : GoError → String
  | GoError.structuredUnsupported => "structured output not supported yet"
  | GoError.timeParse s =>
    "parsing time \x22" ++ s ++ "\x22 as \x222006-01-02T15:04:05Z07:00\x22: cannot parse"
  | GoError.bodyRead m => m

/-- Model of an incoming HTTP request: method, headers (canonical), body
bytes, a possible body-read I/O failure, and the request's own context. -/
structure Request where
  method : String
  header : Header
  body : String
  bodyReadErr : Option String
  ctx : Context
deriving Repr

/-- Model of `convertStructured`: structured content mode is always
rejected. -/
def convertStructured (_req : Request) : Except GoError (String × Context) :=
  Except.error GoError.structuredUnsupported

/-- Model of `convertBinary`: copy the six `CE-*` headers and
`Content-Type` into a `CloudEventContext`, parse a non-empty
`CE-EventTime` as RFC-3339 (failure aborts the whole decode), attach the
context value under the private key, and return the body unchanged. -/
def convertBinary (req : Request) : Except GoError (String × Context) :=
  let cex0 : CloudEventContext :=
    ⟨req.header.get "CE-EventType",
     req.header.get "CE-EventTypeVersion",
     req.header.get "CE-CloudEventsVersion",
     req.header.get "CE-Source",
     req.header.get "CE-EventID",
     GoTime.zero,
     req.header.get "CE-SchemaURL",
     req.header.get "Content-Type",
     []⟩
  let ts := req.header.get "CE-EventTime"
  let withTime : Except GoError CloudEventContext :=
    if ts = "" then Except.ok cex0
    else
      match rfc3339Parse (req.header.get "CE-EventTime") with
      | none => Except.error (GoError.timeParse (req.header.get "CE-EventTime"))
      | some tm =>
        Except.ok ⟨cex0.EventType, cex0.EventTypeVersion, cex0.CloudEventsVersion,
          cex0.Source, cex0.EventID, tm, cex0.SchemaURL, cex0.ContentType,
          cex0.Extensions⟩
  match withTime with
  | Except.error e => Except.error e
  | Except.ok cex =>
    match req.bodyReadErr with
    | some e => Except.error (GoError.bodyRead e)
    | none =>
      Except.ok (req.body, Context.withValue req.ctx CtxKey.contextKey (CtxVal.ce cex))

/-- Model of `strings.HasPrefix`. -/
def strHasPrefix (s pre : String) : Bool :=
  List.isPrefixOf pre.data s.data

/-- Model of an HTTP response as the handler writes it: status code, the
`Content-Type` header when one is set, and the body text. -/
structure Response where
  status : Nat
  contentType : Option String
  body : String
deriving DecidableEq, Repr

/-- Model of `functionHandler.ServeHTTP` with the handler threaded as
explicit state: reject non-POST with 405, select structured vs binary
decoding on the `Content-Type` prefix, map a decode failure to 417 with
the error text, map an invocation error to 500 with the error text, and
otherwise write 200 with the output bytes. -/
def serveHTTP (codec : JsonCodec) (fh : functionHandler) (req : Request) :
    Response × functionHandler :=
  if req.method ≠ "POST" then (⟨405, none, ""⟩, fh)
  else
    let conv :=
      if strHasPrefix (req.header.get "Content-Type") "application/cloudevents" then
        convertStructured req
      else
        convertBinary req
    match conv with
    | Except.error e => (⟨417, some "text/plain", GoError.message e⟩, fh)
    | Except.ok (inp, ctx) =>
      match Invoke codec fh ctx inp with
      | ((_out, some e), fh2) => (⟨500, none, e⟩, fh2)
      | ((out, none), fh2) => (⟨200, none, out.getD ""⟩, fh2)

/-- Sequential processing of a list of requests, threading the handler
state from one request to the next. -/
def serveSeq (codec : JsonCodec) : functionHandler → List Request → List Response
  | _, [] => []
  | fh, r :: rs =>
    match serveHTTP codec fh r with
    | (resp, fh2) => resp :: serveSeq codec fh2 rs

/-- Model of the draft variant's `getHeader`: fetch the `http.Header`
stored under `headerKey` and read the named header, defaulting to the
empty string when no header object is attached. -/
def getHeader (ctx : Context) (k : String) : String :=
  match Context.value ctx CtxKey.headerKey with
  | some (CtxVal.headerV h) => h.get k
  | _ => ""

/-- Model of the draft variant's `EventTime` accessor:
`time.Parse(time.RFC3339, getHeader(ctx, "Ce-Eventtime"))`, returning the
zero time together with an error message on failure. -/
def EventTime (ctx : Context) : GoTime × Option String :=
  match rfc3339Parse (getHeader ctx "Ce-Eventtime") with
  | some t => (t, none)
  | none =>
    (GoTime.zero, some (GoError.message (GoError.timeParse (getHeader ctx "Ce-Eventtime"))))

/-- Model of the draft variant's `EventId` accessor. -/
def EventId (ctx : Context) : String := getHeader ctx "Ce-Eventid"

/-- Request context as built by the draft variant's `ServeHTTP`
(`ctx = context.WithValue(req.Context(), headerKey, req.Header)`). -/
def draftRequestContext (req : Request) : Context :=
  Context.withValue req.ctx CtxKey.headerKey (CtxVal.headerV req.header)

/-- Data type test used by the legal-shape predicate: a byte slice or a
struct that satisfies neither the context nor the error interface. -/
def isData (t : GoType) : Bool :=
  (t.kind == GoKind.sliceU8 || t.kind == GoKind.structKind) &&
    !t.implementsContext && !t.implementsError

/-- Legal parameter lists per the specification: `()`, `(Ctx)`, `(Data)`,
`(Ctx, Data)`. -/
def legalParams : List GoType → Bool
  | [] => true
  | [a] => a.implementsContext || isData a
  | [a, b] => a.implementsContext && isData b
  | _ :: _ :: _ :: _ => false

/-- Legal return lists per the specification: `()`, `(Err)`, `(Data)`,
`(Data, Err)`. -/
def legalRets : List GoType → Bool
  | [] => true
  | [a] => a.implementsError || isData a
  | [a, b] => isData a && b.implementsError
  | _ :: _ :: _ :: _ => false

/-- Legal signature shapes per the specification: one of the four
parameter lists crossed with one of the four return lists. -/
def legalShape (t : FuncType) : Bool := legalParams t.ins && legalRets t.outs

/-- Binding fields a legal shape should map to, following the
specification's words: `needsContext` iff a context parameter is first,
`inType`/`outType` the data parameter / first data return when present,
`hasError` iff the last return value is an error type. -/
def shapeBinding (t : FuncType) : BindingData :=
  ⟨(match t.ins.head? with
    | some a => a.implementsContext
    | none => false),
   (match t.outs.getLast? with
    | some a => a.implementsError
    | none => false),
   t.ins.find? isData,
   t.outs.find? isData⟩

/-- Arity-and-position constraint that `wrap` actually enforces on
parameter lists of length two: the first parameter must satisfy the
context interface. -/
def paramsPositionOk : List GoType → Bool
  | [a, _] => a.implementsContext
  | _ => true

/-- Output kinds representable in the specification's Binding data model:
no data return, a byte-slice return, or a struct return. -/
def isSpecOutKind : Option GoType → Bool
  | none => true
  | some t => t.kind == GoKind.sliceU8 || t.kind == GoKind.structKind

/-- A context interface type (implements `context.Context`). -/
def ctxT : GoType := ⟨GoKind.otherKind, true, false⟩

/-- An error interface type (implements `error`). -/
def errT : GoType := ⟨GoKind.otherKind, false, true⟩

/-- A byte-slice type (`[]byte`). -/
def bytesT : GoType := ⟨GoKind.sliceU8, false, false⟩

/-- A plain struct type. -/
def structT : GoType := ⟨GoKind.structKind, false, false⟩

/-- A type of unsupported kind, such as `int`. -/
def intT : GoType := ⟨GoKind.otherKind, false, false⟩

/-- Codec whose decode always yields a fixed struct instance and whose
encode always succeeds; used for concrete evaluations. -/
def idCodec : JsonCodec :=
  ⟨fun _ _ => Except.ok (GoValue.structV 0), fun _ => Except.ok "null"⟩

/-- Codec whose encode always fails, modelling a value
`json.Marshal` cannot encode. -/
def failMarshalCodec : JsonCodec :=
  ⟨fun _ _ => Except.ok (GoValue.structV 0), fun _ => Except.error "json: unsupported value"⟩

/-- Signature of `func(int)`: one parameter of unsupported kind. -/
def tIntTy : FuncType := ⟨[intT], []⟩

/-- A function value of type `func(int)`. -/
def intFn : GoFunc := ⟨tIntTy, fun _ => []⟩

/-- Signature of `func([]byte, []byte, []byte)`: three parameters. -/
def threeArgTy : FuncType := ⟨[bytesT, bytesT, bytesT], []⟩

/-- A function value with three parameters. -/
def threeArgFn : GoFunc := ⟨threeArgTy, fun _ => []⟩

/-- Signature of `func(ctx, []byte) (struct, error)`: a full legal shape. -/
def legalFnTy : FuncType := ⟨[ctxT, bytesT], [structT, errT]⟩

/-- A function value of the full legal shape. -/
def legalFn : GoFunc := ⟨legalFnTy, fun _ => [GoValue.structV 1, GoValue.errV none]⟩

/-- Handler for a `func() error` whose call returns a non-nil error. -/
def errFnHandler : functionHandler :=
  ⟨fun _ => [GoValue.errV (some "boom")], false, true, none, none⟩

/-- Handler for a `func() (struct, error)` returning a nil error together
with a struct value the codec cannot marshal. -/
def marshalFailHandler : functionHandler :=
  ⟨fun _ => [GoValue.structV 7, GoValue.errV none], false, true, none, some structT⟩

/-- Handler for a `func() (struct, error)` returning a non-nil error
together with a struct value the codec cannot marshal. -/
def marshalFailErrHandler : functionHandler :=
  ⟨fun _ => [GoValue.structV 7, GoValue.errV (some "fn failed")], false, true, none, some structT⟩

/-- A structured-mode request: `Content-Type: application/cloudevents+json`. -/
def structuredReq : Request :=
  ⟨"POST", ⟨[("Content-Type", "application/cloudevents+json")]⟩, "ignored-body", none, []⟩

/-- A plain binary-mode POST request with no headers. -/
def plainPostReq : Request := ⟨"POST", ⟨[]⟩, "", none, []⟩

/-- A binary-mode POST request with a malformed `CE-EventTime` header. -/
def badTimeReq : Request := ⟨"POST", ⟨[("Ce-Eventtime", "not-a-time")]⟩, "", none, []⟩

/-- A binary-mode POST request carrying several metadata headers. -/
def metaReq : Request :=
  ⟨"POST",
   ⟨[("Ce-Eventtype", "com.example.ping"), ("Ce-Source", "https://example.com/src"),
     ("Ce-Eventid", "e-1"), ("Content-Type", "application/json")]⟩,
   "hello-body", none, []⟩

/-- A binary-mode POST request with the headers of the C8 scenario. -/
def c8Req : Request :=
  ⟨"POST",
   ⟨[("Ce-Eventid", "abc-123"), ("Ce-Eventtime", "2020-01-01T00:00:00Z")]⟩,
   "", none, []⟩

/-- A sample CloudEventContext value. -/
def sampleCex : CloudEventContext :=
  ⟨"t", "", "1.0", "src", "id1", GoTime.zero, "", "", []⟩

/-- Invoke never changes the handler state: every branch returns the
handler it was given. -/
theorem Invoke_state_fixed (codec : JsonCodec) (fh : functionHandler)
    (ctx : Context) (inp : String) : (Invoke codec fh ctx inp).2 = fh := by
  unfold Invoke
  cases buildDataArg codec fh.inType inp with
  | error e => rfl
  | ok ds =>
    simp only []
    cases extractOut codec fh.outType
        (fh.f ((if fh.needsContext then [GoValue.ctxV ctx] else []) ++ ds)) with
    | error e => rfl
    | ok p => obtain ⟨o, m⟩ := p; rfl

/-- ServeHTTP never changes the handler state. -/
theorem serveHTTP_state_fixed (codec : JsonCodec) (fh : functionHandler)
    (req : Request) : (serveHTTP codec fh req).2 = fh := by
  unfold serveHTTP
  by_cases hm : req.method ≠ "POST"
  · simp [hm]
  · simp only [hm, if_false]
    cases (if strHasPrefix (req.header.get "Content-Type") "application/cloudevents"
        then convertStructured req else convertBinary req) with
    | error e => rfl
    | ok p =>
      obtain ⟨inp, ctx⟩ := p
      have h2 := Invoke_state_fixed codec fh ctx inp
      cases hI : Invoke codec fh ctx inp with
      | mk a fh2 =>
        obtain ⟨o, e⟩ := a
        rw [hI] at h2
        simp only [hI]
        cases e <;> simpa using h2

/-- C3 (amended): every POST request whose `Content-Type` has the prefix
`application/cloudevents` is answered 417 with the fixed body
`structured output not supported yet`, independently of the handler, the
codec and the request body (so the user function is never invoked), and
the handler state is unchanged. -/
theorem structured_mode_rejected (codec : JsonCodec) (fh : functionHandler)
    (req : Request) (hM : req.method = "POST")
    (hCT : strHasPrefix (req.header.get "Content-Type") "application/cloudevents" = true) :
    serveHTTP codec fh req =
      (⟨417, some "text/plain", "structured output not supported yet"⟩, fh) := by
  simp [serveHTTP, hM, hCT, convertStructured, GoError.message]

/-- C3 (witness): the amended statement at a concrete structured-mode
request. -/
theorem structured_mode_rejected_witness :
    serveHTTP idCodec errFnHandler structuredReq =
      (⟨417, some "text/plain", "structured output not supported yet"⟩, errFnHandler) :=
  structured_mode_rejected idCodec errFnHandler structuredReq rfl (by decide)

/-- C3 (counterexample): a concrete structured-mode POST request is
rejected with body `structured output not supported yet`, which differs
from the body the claim states
(`structured content mode not supported`). -/
theorem structured_mode_message_cex :
    strHasPrefix (structuredReq.header.get "Content-Type") "application/cloudevents" = true ∧
    structuredReq.method = "POST" ∧
    (serveHTTP idCodec errFnHandler structuredReq).1.status = 417 ∧
    (serveHTTP idCodec errFnHandler structuredReq).1.body ≠
      "structured content mode not supported" := by decide

/-- C7: attaching a `CloudEventContext` under the private key (as
`convertBinary` does) makes `CloudEvent` return exactly that value with
`found = true`; on a context with no attached `CloudEventContext`,
`CloudEvent` reports `found = false`. -/
theorem cloudEvent_attach_roundtrip :
    (∀ (ctx : Context) (c : CloudEventContext),
      CloudEvent (Context.withValue ctx CtxKey.contextKey (CtxVal.ce c)) = (c, true)) ∧
    (∀ ctx : Context,
      (∀ c : CloudEventContext, (CtxKey.contextKey, CtxVal.ce c) ∉ ctx) →
      (CloudEvent ctx).2 = false) := by
  constructor
  · intro ctx c
    simp [CloudEvent, Context.withValue, Context.value]
  · intro ctx h
    induction ctx with
    | nil => simp [CloudEvent, Context.value]
    | cons kv rest ih =>
      obtain ⟨k, v⟩ := kv
      by_cases hk : k = CtxKey.contextKey
      · subst hk
        cases v with
        | ce c => exact absurd (List.mem_cons_self _ _) (h c)
        | headerV hh => simp [CloudEvent, Context.value]
        | otherV n => simp [CloudEvent, Context.value]
      · have ih2 := ih (fun c hc => h c (List.mem_cons_of_mem _ hc))
        simpa [CloudEvent, Context.value, hk] using ih2

/-- C7 (witness): the round-trip at a concrete context and value, and the
not-found case at a concrete foreign context. -/
theorem cloudEvent_attach_roundtrip_witness :
    CloudEvent (Context.withValue [] CtxKey.contextKey (CtxVal.ce sampleCex)) =
      (sampleCex, true) ∧
    (CloudEvent ([(CtxKey.headerKey, CtxVal.otherV 3)] : Context)).2 = false :=
  ⟨cloudEvent_attach_roundtrip.1 [] sampleCex,
   cloudEvent_attach_roundtrip.2 [(CtxKey.headerKey, CtxVal.otherV 3)]
     (by intro c hc; simp at hc)⟩

/-- C9: the handler's Binding state is never written: `Invoke` and
`serveHTTP` return the handler unchanged, and a sequence of requests
processed with threaded state yields exactly the responses each request
would get against the startup handler — every request observes the same
Binding. -/
theorem binding_readonly_across_requests (codec : JsonCodec)
    (fh : functionHandler) (ctx : Context) (inp : String) (req : Request)
    (reqs : List Request) :
    (Invoke codec fh ctx inp).2 = fh ∧
    (serveHTTP codec fh req).2 = fh ∧
    serveSeq codec fh reqs = reqs.map (fun r => (serveHTTP codec fh r).1) := by
  refine ⟨Invoke_state_fixed codec fh ctx inp, serveHTTP_state_fixed codec fh req, ?_⟩
  induction reqs with
  | nil => rfl
  | cons r rs ih =>
    unfold serveSeq
    have hs := serveHTTP_state_fixed codec fh r
    cases hS : serveHTTP codec fh r with
    | mk resp fh2 =>
      rw [hS] at hs
      simp only at hs
      simp [hS, hs, ih]

/-- Decode succeeds whenever the body read succeeds and the
`CE-EventTime` header is empty or parses; the produced CloudEventContext
carries the seven header values verbatim and the parsed (or zero)
timestamp, and the payload is the body unchanged. -/
theorem convertBinary_ok_eq (req : Request) (tm : GoTime)
    (hbody : req.bodyReadErr = none)
    (hts : (req.header.get "CE-EventTime" = "" ∧ tm = GoTime.zero) ∨
      rfc3339Parse (req.header.get "CE-EventTime") = some tm) :
    convertBinary req = Except.ok (req.body,
      Context.withValue req.ctx CtxKey.contextKey (CtxVal.ce
        ⟨req.header.get "CE-EventType", req.header.get "CE-EventTypeVersion",
         req.header.get "CE-CloudEventsVersion", req.header.get "CE-Source",
         req.header.get "CE-EventID", tm, req.header.get "CE-SchemaURL",
         req.header.get "Content-Type", []⟩)) := by
  unfold convertBinary
  rcases hts with ⟨h1, h2⟩ | hp
  · simp [h1, hbody, h2]
  · by_cases h0 : req.header.get "CE-EventTime" = ""
    · rw [h0] at hp
      have : rfc3339Parse "" = none := by decide
      rw [this] at hp
      exact absurd hp (by simp)
    · simp [h0, hp, hbody]

/-- Every decoder failure is a timestamp-parse failure or a body-read
failure: the header copies themselves never produce an error. -/
theorem convertBinary_err_shape (req : Request) (e : GoError)
    (h : convertBinary req = Except.error e) :
    (∃ s, e = GoError.timeParse s) ∨ ∃ m, e = GoError.bodyRead m := by
  unfold convertBinary at h
  by_cases h0 : req.header.get "CE-EventTime" = ""
  · simp only [h0, if_pos rfl] at h
    cases hb : req.bodyReadErr with
    | none => rw [hb] at h; simp at h
    | some m =>
      rw [hb] at h
      simp at h
      exact Or.inr ⟨m, h.symm⟩
  · simp only [h0, if_neg h0] at h
    cases hp : rfc3339Parse (req.header.get "CE-EventTime") with
    | none =>
      rw [hp] at h
      simp at h
      exact Or.inl ⟨req.header.get "CE-EventTime", h.symm⟩
    | some tm =>
      rw [hp] at h
      cases hb : req.bodyReadErr with
      | none => rw [hb] at h; simp at h
      | some m =>
        rw [hb] at h
        simp at h
        exact Or.inr ⟨m, h.symm⟩

/-- C6: for every binary-mode request that decodes, the decoder copies
the six `CE-*` metadata headers and `Content-Type` verbatim into the
CloudEventContext (an absent header reads as the empty string) and
returns the request body unmodified as the payload; moreover no decoder
error ever originates from those seven headers. -/
theorem convertBinary_copies_headers (req : Request) (tm : GoTime)
    (hbody : req.bodyReadErr = none)
    (hts : (req.header.get "CE-EventTime" = "" ∧ tm = GoTime.zero) ∨
      rfc3339Parse (req.header.get "CE-EventTime") = some tm) :
    convertBinary req = Except.ok (req.body,
      Context.withValue req.ctx CtxKey.contextKey (CtxVal.ce
        ⟨req.header.get "CE-EventType", req.header.get "CE-EventTypeVersion",
         req.header.get "CE-CloudEventsVersion", req.header.get "CE-Source",
         req.header.get "CE-EventID", tm, req.header.get "CE-SchemaURL",
         req.header.get "Content-Type", []⟩)) ∧
    (∀ (r : Request) (e : GoError), convertBinary r = Except.error e →
      (∃ s, e = GoError.timeParse s) ∨ ∃ m, e = GoError.bodyRead m) :=
  ⟨convertBinary_ok_eq req tm hbody hts,
   fun r e h => convertBinary_err_shape r e h⟩

/-- C6 (witness): the header-copy equation at a concrete request carrying
four headers (the other three absent headers read as empty strings). -/
theorem convertBinary_copies_headers_witness :
    convertBinary metaReq = Except.ok (metaReq.body,
      Context.withValue metaReq.ctx CtxKey.contextKey (CtxVal.ce
        ⟨metaReq.header.get "CE-EventType", metaReq.header.get "CE-EventTypeVersion",
         metaReq.header.get "CE-CloudEventsVersion", metaReq.header.get "CE-Source",
         metaReq.header.get "CE-EventID", GoTime.zero, metaReq.header.get "CE-SchemaURL",
         metaReq.header.get "Content-Type", []⟩)) ∧
    metaReq.header.get "CE-EventType" = "com.example.ping" ∧
    metaReq.header.get "CE-EventTypeVersion" = "" ∧
    metaReq.header.get "CE-EventID" = "e-1" ∧
    metaReq.body = "hello-body" :=
  ⟨(convertBinary_copies_headers metaReq GoTime.zero rfl
      (Or.inl ⟨by decide, rfl⟩)).1,
   by decide, by decide, by decide, rfl⟩

/-- C5: a binary-mode POST whose non-empty `CE-EventTime` header fails
RFC-3339 parsing makes the whole decode fail and the endpoint answer 417
(never 200) with a body that starts with the time-parsing indicator
`parsing time`; an empty or absent `CE-EventTime` header never causes a
failure and leaves the timestamp at the zero value. -/
theorem eventTime_parse_failure_417 (codec : JsonCodec) (fh : functionHandler)
    (req : Request) :
    (req.method = "POST" →
      strHasPrefix (req.header.get "Content-Type") "application/cloudevents" = false →
      req.header.get "CE-EventTime" ≠ "" →
      rfc3339Parse (req.header.get "CE-EventTime") = none →
      convertBinary req =
        Except.error (GoError.timeParse (req.header.get "CE-EventTime")) ∧
      (serveHTTP codec fh req).1.status = 417 ∧
      (∃ rest, (serveHTTP codec fh req).1.body = "parsing time \x22" ++ rest) ∧
      (serveHTTP codec fh req).1.status ≠ 200) ∧
    (req.header.get "CE-EventTime" = "" → req.bodyReadErr = none →
      ∃ cex : CloudEventContext,
        convertBinary req = Except.ok (req.body,
          Context.withValue req.ctx CtxKey.contextKey (CtxVal.ce cex)) ∧
        cex.EventTime = GoTime.zero) := by
  constructor
  · intro hM hCT hne hp
    have hconv : convertBinary req =
        Except.error (GoError.timeParse (req.header.get "CE-EventTime")) := by
      unfold convertBinary
      simp [hne, hp]
    have hserve : (serveHTTP codec fh req).1 =
        ⟨417, some "text/plain",
          GoError.message (GoError.timeParse (req.header.get "CE-EventTime"))⟩ := by
      unfold serveHTTP
      simp [hM, hCT, hconv]
    refine ⟨hconv, by rw [hserve], ?_,
      by rw [hserve]; show (417 : Nat) ≠ 200; decide⟩
    refine ⟨req.header.get "CE-EventTime" ++
      "\x22 as \x222006-01-02T15:04:05Z07:00\x22: cannot parse", ?_⟩
    rw [hserve]
    show GoError.message (GoError.timeParse (req.header.get "CE-EventTime")) = _
    simp only [GoError.message, String.append_assoc]
  · intro h0 hbody
    exact ⟨⟨req.header.get "CE-EventType", req.header.get "CE-EventTypeVersion",
      req.header.get "CE-CloudEventsVersion", req.header.get "CE-Source",
      req.header.get "CE-EventID", GoTime.zero, req.header.get "CE-SchemaURL",
      req.header.get "Content-Type", []⟩,
      convertBinary_ok_eq req GoTime.zero hbody (Or.inl ⟨h0, rfl⟩), rfl⟩

/-- C5 (witness): the failure half at a concrete malformed-timestamp
request and the success half at a concrete request without the header. -/
theorem eventTime_parse_failure_417_witness :
    (convertBinary badTimeReq =
        Except.error (GoError.timeParse (badTimeReq.header.get "CE-EventTime")) ∧
      (serveHTTP idCodec errFnHandler badTimeReq).1.status = 417 ∧
      (∃ rest, (serveHTTP idCodec errFnHandler badTimeReq).1.body =
        "parsing time \x22" ++ rest) ∧
      (serveHTTP idCodec errFnHandler badTimeReq).1.status ≠ 200) ∧
    (∃ cex : CloudEventContext,
      convertBinary plainPostReq = Except.ok (plainPostReq.body,
        Context.withValue plainPostReq.ctx CtxKey.contextKey (CtxVal.ce cex)) ∧
      cex.EventTime = GoTime.zero) :=
  ⟨(eventTime_parse_failure_417 idCodec errFnHandler badTimeReq).1
      rfl (by decide) (by decide) (by decide),
   (eventTime_parse_failure_417 idCodec errFnHandler plainPostReq).2
      (by decide) rfl⟩

/-- Result extraction never takes the early-return branch when the output
kind is one of the specification's Binding kinds. -/
theorem extractOut_ok_of_specKind (codec : JsonCodec) (o : Option GoType)
    (response : List GoValue) (hOut : isSpecOutKind o = true) :
    ∃ p, extractOut codec o response = Except.ok p := by
  cases o with
  | none => exact ⟨(none, none), rfl⟩
  | some t =>
    simp only [isSpecOutKind] at hOut
    rcases Bool.or_eq_true_iff.mp hOut with hk | hk
    · have hk2 : t.kind = GoKind.sliceU8 := by simpa using hk
      refine ⟨(some (GoValue.goBytes (response.getD 0 (GoValue.otherV 0))), none), ?_⟩
      unfold extractOut
      simp only []
      rw [if_pos hk2]
    · have hk2 : t.kind = GoKind.structKind := by simpa using hk
      have hk3 : t.kind ≠ GoKind.sliceU8 := by rw [hk2]; decide
      cases hm : codec.marshal (response.getD 0 (GoValue.otherV 0)) with
      | ok s =>
        refine ⟨(some s, none), ?_⟩
        unfold extractOut
        simp only []
        rw [if_neg hk3, if_pos hk2, hm]
      | error e =>
        refine ⟨(none, some e), ?_⟩
        unfold extractOut
        simp only []
        rw [if_neg hk3, if_pos hk2, hm]

/-- Invocation error when the data argument builds, the output kind is a
spec-representable one, and the signature has an error return: the error
component is exactly the last return value's assertion result. -/
theorem Invoke_hasError_result (codec : JsonCodec) (fh : functionHandler)
    (ctx : Context) (inp : String) (ds : List GoValue)
    (hErr : fh.hasError = true)
    (hOut : isSpecOutKind fh.outType = true)
    (hIn : buildDataArg codec fh.inType inp = Except.ok ds) :
    (Invoke codec fh ctx inp).1.2 =
      lastError (fh.f ((if fh.needsContext then [GoValue.ctxV ctx] else []) ++ ds)) := by
  unfold Invoke
  rw [hIn]
  obtain ⟨p, hp⟩ := extractOut_ok_of_specKind codec fh.outType
    (fh.f ((if fh.needsContext then [GoValue.ctxV ctx] else []) ++ ds)) hOut
  simp only []
  rw [hp]
  obtain ⟨o, m⟩ := p
  simp [hErr]

/-- C4: for every spec-representable binding with an error return, when
the invoked function's last return value is a non-nil error, the endpoint
answers 500 with body exactly the error's message; any data produced from
the first return value is discarded and never written. -/
theorem user_error_maps_to_500 (codec : JsonCodec) (fh : functionHandler)
    (req : Request) (inp : String) (ctx : Context) (ds : List GoValue)
    (msg : String)
    (hM : req.method = "POST")
    (hCT : strHasPrefix (req.header.get "Content-Type") "application/cloudevents" = false)
    (hDec : convertBinary req = Except.ok (inp, ctx))
    (hErr : fh.hasError = true)
    (hOut : isSpecOutKind fh.outType = true)
    (hIn : buildDataArg codec fh.inType inp = Except.ok ds)
    (hLast : lastError
      (fh.f ((if fh.needsContext then [GoValue.ctxV ctx] else []) ++ ds)) = some msg) :
    (serveHTTP codec fh req).1 = ⟨500, none, msg⟩ := by
  have hI : (Invoke codec fh ctx inp).1.2 = some msg := by
    rw [Invoke_hasError_result codec fh ctx inp ds hErr hOut hIn, hLast]
  unfold serveHTTP
  simp only [hM, hCT]
  cases hInv : Invoke codec fh ctx inp with
  | mk a fh2 =>
    obtain ⟨o, e⟩ := a
    rw [hInv] at hI
    simp only at hI
    subst hI
    simp [hDec, hInv]

/-- C4 (witness): a concrete `func() error` returning the error `boom`
yields exactly the 500 response with body `boom`. -/
theorem user_error_maps_to_500_witness :
    (serveHTTP idCodec errFnHandler plainPostReq).1 = ⟨500, none, "boom"⟩ :=
  user_error_maps_to_500 idCodec errFnHandler plainPostReq ""
    (Context.withValue [] CtxKey.contextKey (CtxVal.ce
      ⟨"", "", "", "", "", GoTime.zero, "", "", []⟩))
    [] "boom" rfl (by decide) (by decide) rfl rfl rfl (by decide)

/-- C10 (amended): for a binding with a struct output type and an error
return, a JSON-encoding failure of the first return value causes no early
return, and the last return value alone determines the error: a non-nil
function error replaces the encoding error, and a nil function error
discards the encoding error as well, so the encoding failure is never
surfaced. -/
theorem invoke_error_precedence (codec : JsonCodec) (fh : functionHandler)
    (ctx : Context) (inp : String) (ds : List GoValue) (t : GoType)
    (emsg : String)
    (hErr : fh.hasError = true)
    (hOut : fh.outType = some t)
    (hKind : t.kind = GoKind.structKind)
    (hIn : buildDataArg codec fh.inType inp = Except.ok ds)
    (hMarshal : codec.marshal
      ((fh.f ((if fh.needsContext then [GoValue.ctxV ctx] else []) ++ ds)).getD 0
        (GoValue.otherV 0)) = Except.error emsg) :
    (Invoke codec fh ctx inp).1 =
      (none, lastError (fh.f ((if fh.needsContext then [GoValue.ctxV ctx] else []) ++ ds))) := by
  unfold Invoke
  rw [hIn]
  simp only []
  have hk3 : t.kind ≠ GoKind.sliceU8 := by rw [hKind]; decide
  have hx : extractOut codec fh.outType
      (fh.f ((if fh.needsContext then [GoValue.ctxV ctx] else []) ++ ds)) =
      Except.ok (none, some emsg) := by
    unfold extractOut
    rw [hOut]
    simp only []
    rw [if_neg hk3, if_pos hKind, hMarshal]
  rw [hx]
  simp [hErr]

/-- C10 (witness): the amended statement at a concrete handler whose
function reports the error `fn failed` while its struct output fails to
marshal — the function's error wins. -/
theorem invoke_error_precedence_witness :
    (Invoke failMarshalCodec marshalFailErrHandler [] "").1 =
      (none, lastError (marshalFailErrHandler.f
        ((if marshalFailErrHandler.needsContext then [GoValue.ctxV []] else []) ++ []))) :=
  invoke_error_precedence failMarshalCodec marshalFailErrHandler [] "" [] structT
    "json: unsupported value" rfl rfl rfl rfl (by decide)

/-- C10 (counterexample): with a nil function error and a failing
encoder, Invoke returns no error at all — the encoding failure is not
surfaced — and the endpoint answers 200 with an empty body. -/
theorem invoke_encode_error_clobbered_cex :
    failMarshalCodec.marshal (GoValue.structV 7) =
      Except.error "json: unsupported value" ∧
    marshalFailHandler.hasError = true ∧
    lastError (marshalFailHandler.f []) = none ∧
    (Invoke failMarshalCodec marshalFailHandler [] "").1 =
      ((none : Option String), (none : Option String)) ∧
    (serveHTTP failMarshalCodec marshalFailHandler plainPostReq).1 =
      ⟨200, none, ""⟩ := by decide

/-- C8: a request carrying `CE-EventID: abc-123` and
`CE-EventTime: 2020-01-01T00:00:00Z` makes the draft accessors return
`abc-123` and the timestamp 2020-01-01T00:00:00Z with no error on the
context the draft `ServeHTTP` builds; `EventTime` returns an error
whenever the header is absent, empty or malformed. -/
theorem draft_accessors_event_fields (req : Request)
    (hid : req.header.get "CE-EventID" = "abc-123")
    (htime : req.header.get "CE-EventTime" = "2020-01-01T00:00:00Z") :
    EventId (draftRequestContext req) = "abc-123" ∧
    EventTime (draftRequestContext req) = (⟨2020, 1, 1, 0, 0, 0, 0, 0⟩, none) ∧
    (∀ ctx : Context,
      getHeader ctx "Ce-Eventtime" = "" ∨
        rfc3339Parse (getHeader ctx "Ce-Eventtime") = none →
      (EventTime ctx).2.isSome = true) := by
  have hgid : getHeader (draftRequestContext req) "Ce-Eventid" =
      req.header.get "Ce-Eventid" := by
    simp [getHeader, draftRequestContext, Context.withValue, Context.value]
  have hgtime : getHeader (draftRequestContext req) "Ce-Eventtime" =
      req.header.get "Ce-Eventtime" := by
    simp [getHeader, draftRequestContext, Context.withValue, Context.value]
  have hkid : canonicalHeaderKey "Ce-Eventid" = canonicalHeaderKey "CE-EventID" := by
    decide
  have hktime : canonicalHeaderKey "Ce-Eventtime" = canonicalHeaderKey "CE-EventTime" := by
    decide
  have hid2 : req.header.get "Ce-Eventid" = "abc-123" := by
    rw [Header.get, hkid, ← Header.get, hid]
  have htime2 : req.header.get "Ce-Eventtime" = "2020-01-01T00:00:00Z" := by
    rw [Header.get, hktime, ← Header.get, htime]
  refine ⟨?_, ?_, ?_⟩
  · rw [EventId, hgid, hid2]
  · rw [EventTime, hgtime, htime2]
    decide
  · intro ctx h
    have hnone : rfc3339Parse (getHeader ctx "Ce-Eventtime") = none := by
      rcases h with h0 | hp
      · rw [h0]; decide
      · exact hp
    rw [EventTime, hnone]
    simp

/-- C8 (witness): the accessor values at a concrete request, and the
error case at the empty context. -/
theorem draft_accessors_event_fields_witness :
    EventId (draftRequestContext c8Req) = "abc-123" ∧
    EventTime (draftRequestContext c8Req) = (⟨2020, 1, 1, 0, 0, 0, 0, 0⟩, none) ∧
    (EventTime ([] : Context)).2.isSome = true :=
  ⟨(draft_accessors_event_fields c8Req (by decide) (by decide)).1,
   (draft_accessors_event_fields c8Req (by decide) (by decide)).2.1,
   (draft_accessors_event_fields c8Req (by decide) (by decide)).2.2 []
     (Or.inl (by decide))⟩

/-- C1 (counterexample): `func(int)` — a single parameter of unsupported
kind — lies outside the six legal shapes, yet `wrap` accepts it at setup
time, and the failure is deferred to request time, where `Invoke` fails
with the generic unmarshal-type error. -/
theorem wrap_accepts_unsupported_kind_cex :
    legalShape tIntTy = false ∧
    exceptOk (wrap (GoFuncValue.func intFn)) = true ∧
    Except.map (fun h => (Invoke idCodec h ([] : Context) "payload").1)
      (wrap (GoFuncValue.func intFn)) =
      Except.ok ((none : Option String), some "Unable to unmarshall type") := by decide

/-- C1 (amended): `wrap` rejects, at setup time and with the specific
corresponding SignatureError, exactly the arity and position violations:
non-functions, more than two parameters, two parameters whose first is
not a context, more than two return values, and two return values whose
first is an error or whose second is not; it does not validate the kind
of a data parameter or return, which fails only at request time. -/
theorem wrap_arity_position_errors (fn : GoFunc) :
    (wrap GoFuncValue.nonFunc = Except.error SignatureError.notAFunction) ∧
    (fn.typ.ins.length > 2 →
      wrap (GoFuncValue.func fn) = Except.error SignatureError.tooManyArguments) ∧
    (∀ a b : GoType, fn.typ.ins = [a, b] → a.implementsContext = false →
      wrap (GoFuncValue.func fn) = Except.error SignatureError.contextMustBeFirst) ∧
    (fn.typ.ins.length ≤ 2 → paramsPositionOk fn.typ.ins = true →
      fn.typ.outs.length > 2 →
      wrap (GoFuncValue.func fn) = Except.error SignatureError.tooManyReturnValues) ∧
    (∀ a b : GoType, fn.typ.ins.length ≤ 2 → paramsPositionOk fn.typ.ins = true →
      fn.typ.outs = [a, b] →
      (a.implementsError = true ∨ b.implementsError = false) →
      wrap (GoFuncValue.func fn) = Except.error SignatureError.invalidErrorPosition) := by
  refine ⟨rfl, ?_, ?_, ?_, ?_⟩
  · intro h2
    simp only [wrap]
    rw [if_pos h2]
  · intro a b hins hctx
    simp [wrap, hins, hctx]
  · intro h1 h2 h3
    cases hins : fn.typ.ins with
    | nil => simp [wrap, hins, h3, Nat.not_lt.mpr]
    | cons a it =>
      cases it with
      | nil => simp [wrap, hins, h3]
      | cons b it2 =>
        cases it2 with
        | nil =>
          rw [hins] at h2
          simp only [paramsPositionOk] at h2
          simp [wrap, hins, h2, h3]
        | cons c it3 =>
          rw [hins] at h1
          simp at h1
  · intro a b h1 h2 houts hbad
    cases hins : fn.typ.ins with
    | nil =>
      rcases hbad with hb | hb <;> simp [wrap, hins, houts, hb]
    | cons a2 it =>
      cases it with
      | nil =>
        rcases hbad with hb | hb <;> simp [wrap, hins, houts, hb]
      | cons b2 it2 =>
        cases it2 with
        | nil =>
          rw [hins] at h2
          simp only [paramsPositionOk] at h2
          rcases hbad with hb | hb <;> simp [wrap, hins, h2, houts, hb]
        | cons c2 it3 =>
          rw [hins] at h1
          simp at h1

/-- C1 (witness): the amended rejection statement at concrete inputs — a
non-function and a three-parameter function. -/
theorem wrap_arity_position_errors_witness :
    wrap GoFuncValue.nonFunc = Except.error SignatureError.notAFunction ∧
    wrap (GoFuncValue.func threeArgFn) = Except.error SignatureError.tooManyArguments :=
  ⟨(wrap_arity_position_errors threeArgFn).1,
   (wrap_arity_position_errors threeArgFn).2.1 (by decide)⟩

/-- C2: on every legal signature shape, `wrap` succeeds and the Binding
fields match the shape exactly: `needsContext` iff a context parameter is
first, `inType`/`outType` the data parameter / first data return when
present, and `hasError` iff the last return value is an error type. -/
theorem wrap_legal_shapes (fn : GoFunc) (h : legalShape fn.typ = true) :
    Except.map functionHandler.binding (wrap (GoFuncValue.func fn)) =
      Except.ok (shapeBinding fn.typ) := by
  obtain ⟨⟨ins, outs⟩, call⟩ := fn
  cases ins with
  | nil =>
    cases outs with
    | nil => rfl
    | cons d ot =>
      cases ot with
      | nil =>
        simp only [legalShape, legalParams, legalRets, isData, Bool.and_eq_true,
          Bool.or_eq_true, beq_iff_eq, Bool.not_eq_true', Bool.true_and,
          Bool.and_true] at h
        rcases h with hd | ⟨⟨hdk, hdc⟩, hde⟩
        · simp [wrap, shapeBinding, isData, Except.map, functionHandler.binding, hd]
        · rcases hdk with hdk | hdk <;>
            simp [wrap, shapeBinding, isData, Except.map, functionHandler.binding,
              hdk, hdc, hde]
      | cons e ot2 =>
        cases ot2 with
        | nil =>
          simp only [legalShape, legalParams, legalRets, isData, Bool.and_eq_true,
            Bool.or_eq_true, beq_iff_eq, Bool.not_eq_true', Bool.true_and,
            Bool.and_true] at h
          obtain ⟨⟨⟨hdk, hdc⟩, hde⟩, he⟩ := h
          rcases hdk with hdk | hdk <;>
            simp [wrap, shapeBinding, isData, Except.map, functionHandler.binding,
              hdk, hdc, hde, he]
        | cons f ot3 => simp [legalShape, legalRets] at h
  | cons a it =>
    cases it with
    | nil =>
      cases outs with
      | nil =>
        simp only [legalShape, legalParams, legalRets, isData, Bool.and_eq_true,
          Bool.or_eq_true, beq_iff_eq, Bool.not_eq_true', Bool.true_and,
          Bool.and_true] at h
        rcases h with ha | ⟨⟨hak, hac⟩, hae⟩
        · simp [wrap, shapeBinding, isData, Except.map, functionHandler.binding, ha]
        · rcases hak with hak | hak <;>
            simp [wrap, shapeBinding, isData, Except.map, functionHandler.binding,
              hak, hac, hae]
      | cons d ot =>
        cases ot with
        | nil =>
          simp only [legalShape, legalParams, legalRets, isData, Bool.and_eq_true,
            Bool.or_eq_true, beq_iff_eq, Bool.not_eq_true', Bool.true_and,
            Bool.and_true] at h
          obtain ⟨ha, hd⟩ := h
          rcases ha with ha | ⟨⟨hak, hac⟩, hae⟩ <;>
            rcases hd with hd | ⟨⟨hdk, hdc⟩, hde⟩
          · simp [wrap, shapeBinding, isData, Except.map, functionHandler.binding,
              ha, hd]
          · rcases hdk with hdk | hdk <;>
              simp [wrap, shapeBinding, isData, Except.map, functionHandler.binding,
                ha, hdk, hdc, hde]
          · rcases hak with hak | hak <;>
              simp [wrap, shapeBinding, isData, Except.map, functionHandler.binding,
                hak, hac, hae, hd]
          · rcases hak with hak | hak <;> rcases hdk with hdk | hdk <;>
              simp [wrap, shapeBinding, isData, Except.map, functionHandler.binding,
                hak, hac, hae, hdk, hdc, hde]
        | cons e ot2 =>
          cases ot2 with
          | nil =>
            simp only [legalShape, legalParams, legalRets, isData, Bool.and_eq_true,
              Bool.or_eq_true, beq_iff_eq, Bool.not_eq_true', Bool.true_and,
              Bool.and_true] at h
            obtain ⟨ha, ⟨⟨hdk, hdc⟩, hde⟩, he⟩ := h
            rcases ha with ha | ⟨⟨hak, hac⟩, hae⟩
            · rcases hdk with hdk | hdk <;>
                simp [wrap, shapeBinding, isData, Except.map, functionHandler.binding,
                  ha, hdk, hdc, hde, he]
            · rcases hak with hak | hak <;> rcases hdk with hdk | hdk <;>
                simp [wrap, shapeBinding, isData, Except.map, functionHandler.binding,
                  hak, hac, hae, hdk, hdc, hde, he]
          | cons f ot3 => simp [legalShape, legalRets] at h
    | cons b it2 =>
      cases it2 with
      | nil =>
        cases outs with
        | nil =>
          simp only [legalShape, legalParams, legalRets, isData, Bool.and_eq_true,
            Bool.or_eq_true, beq_iff_eq, Bool.not_eq_true', Bool.true_and,
            Bool.and_true] at h
          obtain ⟨ha, ⟨hbk, hbc⟩, hbe⟩ := h
          rcases hbk with hbk | hbk <;>
            simp [wrap, shapeBinding, isData, Except.map, functionHandler.binding,
              ha, hbk, hbc, hbe]
        | cons d ot =>
          cases ot with
          | nil =>
            simp only [legalShape, legalParams, legalRets, isData, Bool.and_eq_true,
              Bool.or_eq_true, beq_iff_eq, Bool.not_eq_true', Bool.true_and,
              Bool.and_true] at h
            obtain ⟨⟨ha, ⟨hbk, hbc⟩, hbe⟩, hd⟩ := h
            rcases hd with hd | ⟨⟨hdk, hdc⟩, hde⟩
            · rcases hbk with hbk | hbk <;>
                simp [wrap, shapeBinding, isData, Except.map, functionHandler.binding,
                  ha, hbk, hbc, hbe, hd]
            · rcases hbk with hbk | hbk <;> rcases hdk with hdk | hdk <;>
                simp [wrap, shapeBinding, isData, Except.map, functionHandler.binding,
                  ha, hbk, hbc, hbe, hdk, hdc, hde]
          | cons e ot2 =>
            cases ot2 with
            | nil =>
              simp only [legalShape, legalParams, legalRets, isData, Bool.and_eq_true,
                Bool.or_eq_true, beq_iff_eq, Bool.not_eq_true', Bool.true_and,
                Bool.and_true] at h
              obtain ⟨⟨ha, ⟨hbk, hbc⟩, hbe⟩, ⟨⟨hdk, hdc⟩, hde⟩, he⟩ := h
              rcases hbk with hbk | hbk <;> rcases hdk with hdk | hdk <;>
                simp [wrap, shapeBinding, isData, Except.map, functionHandler.binding,
                  ha, hbk, hbc, hbe, hdk, hdc, hde, he]
            | cons f ot3 => simp [legalShape, legalRets] at h
      | cons c it3 => simp [legalShape, legalParams] at h

/-- C2 (witness): the legal-shape analysis at the concrete signature
`func(ctx, []byte) (struct, error)`. -/
theorem wrap_legal_shapes_witness :
    Except.map functionHandler.binding (wrap (GoFuncValue.func legalFn)) =
      Except.ok (shapeBinding legalFnTy) :=
  wrap_legal_shapes legalFn (by decide)
